import Mathlib

/-!
Shallow embedding of `src/main.py` of the Auto_opener repository.

The program is a Windows desktop utility (customtkinter GUI) that groups
shortcuts (`.lnk` files) and web URLs into named folders under a `data`
directory and launches them.  The GUI layer (labels, frames, buttons,
colors, packing) is presentation-only and is not modelled; every
state-bearing operation of the Python classes `OptionApp`, `Option`,
`MainPage`, `OptionPage` is translated here.

Naming: the Python class `Option` (a folder of launchable items) is
rendered as `Folder` because `Option` is taken by Lean's core library;
all its methods keep their Python names.  Launch side effects
(`OptionApp.run`, i.e. `os.startfile` / `webbrowser.open`) are modelled
as traces: a run returns the list of `OptionApp`s launched, in order.

File contents are modelled as byte lists (`List Char`).  The program
opens files in text mode on Windows, so writes translate `'\n'` to
`"\r\n"` (`encodeWrite`) and reads use universal-newline decoding
(`udecode`: `"\r\n"` and lone `'\r'` become `'\n'`); `os.linesep` is
`"\r\n"`.
-/

/-- Python `str.strip()` whitespace, restricted to the ASCII whitespace
characters (space, tab, LF, CR, VT, FF). -/
def isPySpace (c : Char) : Bool :=
  c = ' ' || c = '\t' || c = '\n' || c = '\r' || c = '\x0b' || c = '\x0c'

/-- `str.strip()` on the character list: drop whitespace from both ends. -/
def stripChars (cs : List Char) : List Char :=
  ((cs.dropWhile isPySpace).reverse.dropWhile isPySpace).reverse

/-- Python `url.strip()` / `name.strip()`. -/
def pyStrip (s : String) : String :=
  String.mk (stripChars s.data)

/-- Windows `os.linesep`. -/
def osLinesep : String := "\r\n"

/-- Writing a string through a Windows text-mode stream: each `'\n'`
becomes `"\r\n"` on disk (`io.open` with `newline=None`). -/
def encodeWrite (s : String) : List Char :=
  s.data.flatMap fun c => if c = '\n' then ['\r', '\n'] else [c]

/-- Universal-newline decoding of a text-mode read (`newline=None`):
`"\r\n"` and a lone `'\r'` are both translated to `'\n'`. -/
def udecode : List Char → List Char
  | [] => []
  | '\r' :: '\n' :: rest => '\n' :: udecode rest
  | '\r' :: rest => '\n' :: udecode rest
  | c :: rest => c :: udecode rest

/-- `file.readlines()`: split the decoded stream after every `'\n'`,
keeping the terminator; a final unterminated line is kept too. -/
def splitLinesAux : List Char → List Char → List String
  | [], [] => []
  | [], acc => [String.mk acc.reverse]
  | c :: rest, acc =>
    if c = '\n' then String.mk (acc.reverse ++ ['\n']) :: splitLinesAux rest []
    else splitLinesAux rest (c :: acc)

def readlines (cs : List Char) : List String :=
  splitLinesAux cs []

/-- `OptionAppType` enum of `main.py`. -/
inductive OptionAppType where
  | lnk
  | web
  deriving DecidableEq, Repr

/-- The Python class `OptionApp`: a launchable entry.  `path` is a
filesystem path for `lnk` items and the URL string for `web` items
(the Python code passes a `str` for web apps).  GUI label state is not
modelled. -/
structure OptionApp where
  path : String
  type : OptionAppType
  selected : Bool
  deriving DecidableEq, Repr

/-- `OptionApp.run`: launching is fire-and-forget; the model returns the
trace of launched items (this item). -/
def OptionApp.run (a : OptionApp) : List OptionApp := [a]

/-- The Python class `Option` (renamed: `Option` is Lean's core type): a
named folder of `OptionApp`s with a selection flag.  The class-level
registry `Option.__all__` and `MainPage.options` hold the same folders in
the same order in every modelled flow (both are appended to in
`add_option` and removed from in `del_option`/`delete`), so a single
`List Folder` stands for both. -/
structure Folder where
  name : String
  apps : List OptionApp
  selected : Bool
  deriving DecidableEq, Repr

/-- `Option.run_all`: `for app in self.apps: app.run()` — trace of
launched items. -/
def Folder.run_all (f : Folder) : List OptionApp :=
  f.apps.foldl (fun trace app => trace ++ app.run) []

/-- `Option.run_selected`:
`for app in self.apps: if app.selected: app.run()`. -/
def Folder.run_selected (f : Folder) : List OptionApp :=
  f.apps.foldl (fun trace app => if app.selected then trace ++ app.run else trace) []

/-- `Option.get_selected` (classmethod): first registered folder whose
`selected` field is true, else `None`. -/
def Folder.get_selected (all : List Folder) : Option Folder :=
  all.find? fun option => option.selected

/-- The effect of `self.get_selected().deselect()` on the registry: the
first selected folder gets `selected = False`; if none is selected the
`AttributeError` from `None.deselect()` is caught and nothing changes. -/
def deselectFirstSelected : List Folder → List Folder
  | [] => []
  | f :: rest =>
    if f.selected then { f with selected := false } :: rest
    else f :: deselectFirstSelected rest

/-- `self.select()` where `self` is the folder at index `i` of the
registry: sets its `selected` field to true. -/
def selectIdx : List Folder → Nat → List Folder
  | [], _ => []
  | f :: rest, 0 => { f with selected := true } :: rest
  | f :: rest, n + 1 => f :: selectIdx rest n

/-- `Option.on_click` for the folder at index `i`:
`try: self.get_selected().deselect() except AttributeError: pass` then
`self.select()`. -/
def Folder.on_click (all : List Folder) (i : Nat) : List Folder :=
  selectIdx (deselectFirstSelected all) i

/-- At most one folder in the registry is selected. -/
def atMostOneSelected (all : List Folder) : Prop :=
  (all.filter fun f => f.selected).length ≤ 1

instance (all : List Folder) : Decidable (atMostOneSelected all) :=
  inferInstanceAs (Decidable (_ ≤ _))

/-- A directory on disk: its name and its regular files (name, bytes). -/
abbrev DirFiles := List (String × List Char)

/-- The `data` directory: the immediate subdirectories, in `os.listdir`
order, each with its files. -/
abbrev Disk := List (String × DirFiles)

/-- `Path.joinpath` rendered on strings. -/
def joinPath (a b : String) : String := a ++ "/" ++ b

/-- The persistent and in-memory state the claims touch: `MainPage`'s
`self.options` (kept in sync with `Option.__all__`, see `Folder`) and
the `data` directory.  `data_folder_path` is a fixed constant
(`<script dir>/data`), modelled as the literal `"data"`. -/
structure MainState where
  options : List Folder
  disk : Disk
  deriving DecidableEq

/-- `os.path.isdir(data/<name>)`. -/
def dirExists (disk : Disk) (name : String) : Bool :=
  disk.any fun d => d.1 = name

/-- `MainPage.add_option(option_name, option_apps)`: strips the name,
silently returns on an empty or duplicate name, otherwise appends the
new `Option` to the registry and, when `data/<name>` does not exist yet,
creates the directory with an empty `weburls.txt` (`open(..., 'x')`). -/
def MainPage.add_option (st : MainState) (option_name : String)
    (option_apps : List OptionApp) : MainState :=
  let option_name := pyStrip option_name
  if option_name = "" then st
  else if st.options.any (fun option => option_name = option.name) then st
  else
    let new_option : Folder := { name := option_name, apps := option_apps, selected := false }
    let options := st.options ++ [new_option]
    if dirExists st.disk option_name then { options := options, disk := st.disk }
    else { options := options
           disk := st.disk ++ [(option_name, [("weburls.txt", [])])] }

/-- `MainPage.add_new_option`: reads the entry text and calls
`add_option` with it (the `option_apps is None` branch passes `[]`). -/
def MainPage.add_new_option (st : MainState) (entry_text : String) : MainState :=
  MainPage.add_option st entry_text []

/-- `MainPage.get_selected_option` = `Option.get_selected()`. -/
def MainPage.get_selected_option (st : MainState) : Option Folder :=
  Folder.get_selected st.options

/-- `MainPage.del_option` + `Option.delete`: `self.options.remove(option)`
removes the object by identity; the deleted object is the first selected
one, so the registry loses exactly its first selected entry. -/
def removeFirstSelected : List Folder → List Folder
  | [] => []
  | f :: rest => if f.selected then rest else f :: removeFirstSelected rest

/-- `MainPage.del_selected_option`: with a selected folder, run
`shutil.rmtree(data/<name>)` and drop the folder from the registry;
without one, do nothing. -/
def MainPage.del_selected_option (st : MainState) : MainState :=
  match MainPage.get_selected_option st with
  | none => st
  | some selected_option =>
    { options := removeFirstSelected st.options
      disk := st.disk.filter fun d => ¬ d.1 = selected_option.name }

/-- The loop body of `MainPage.get_options` for `weburls.txt`:
`file.readlines()`, strip each line, skip blanks, make a web
`OptionApp` from each remaining URL. -/
def parseWeburls (content : List Char) : List OptionApp :=
  (readlines (udecode content)).foldl
    (fun cur_apps url =>
      let url := pyStrip url
      if url = "" then cur_apps
      else cur_apps ++ [{ path := url, type := OptionAppType.web, selected := false }])
    []

/-- The apps loaded from one folder directory by `MainPage.get_options`:
the file named `weburls.txt` is parsed as the URL list; every other file
becomes a `lnk` app whose path is `data/<dir>/<file>`. -/
def loadDirApps (option_name : String) (files : DirFiles) : List OptionApp :=
  files.foldl
    (fun cur_apps f =>
      if f.1 = "weburls.txt" then cur_apps ++ parseWeburls f.2
      else cur_apps ++ [{ path := joinPath (joinPath "data" option_name) f.1
                          type := OptionAppType.lnk, selected := false }])
    []

/-- `MainPage.get_options`: reset `self.options` to `[]`, then for every
subdirectory of the data folder load its apps and call `add_option`
(which strips the directory name, skips duplicates and creates the
directory only if missing — it exists, being listed). -/
def MainPage.get_options (st : MainState) : MainState :=
  st.disk.foldl
    (fun acc d => MainPage.add_option acc d.1 (loadDirApps d.1 d.2))
    { st with options := [] }

/-- Python `==` between a `str` and an `Option` instance: `str.__eq__`
returns `NotImplemented` and class `Option` defines no `__eq__`, so the
comparison falls back to identity, which never holds between a string
and an `Option` object. -/
def pyEqStrFolder (_s : String) (_option : Folder) : Bool := false

/-- `MainPage.get_option(option)`: the loop variable shadows the
parameter (`for option in self.get_options(): if option.name == option`),
so each test compares the loop folder's name with the loop folder itself.
`get_options` is re-run first, mutating the state; the model returns the
reloaded state together with the result. -/
def MainPage.get_option (st : MainState) (_option : Folder) :
    MainState × Option Folder :=
  let st := MainPage.get_options st
  (st, st.options.find? fun option => pyEqStrFolder option.name option)

/-- `MainPage.get_apps(option)` = `self.get_option(option).get_apps()`:
`none` models the `AttributeError` raised when `get_option` returns
`None`. -/
def MainPage.get_apps (st : MainState) (option : Folder) : Option (List OptionApp) :=
  (MainPage.get_option st option).2.map Folder.get_apps
where
  /-- `Option.get_apps`. -/
  Folder.get_apps (f : Folder) : List OptionApp := f.apps

/-- `MainPage.add_site(option, site_url)` =
`self.get_option(option).add_site(site_url)`: again `none` models the
`AttributeError` on `None` (class `Option` has no `add_site` method at
all, so even a non-`None` result would fail; the lookup never provides
one). -/
def MainPage.add_site (st : MainState) (option : Folder) (_site_url : String) :
    Option Folder :=
  (MainPage.get_option st option).2

/-- `MainPage.run_option(option)`: `option.run_all()`. -/
def MainPage.run_option (option : Folder) : List OptionApp :=
  option.run_all

/-- `MainPage.run_selected_option` (the "Run all from folder" button):
if a folder is globally selected, `run_option` on it; else nothing.
Returns the trace of launched apps. -/
def MainPage.run_selected_option (st : MainState) : List OptionApp :=
  match MainPage.get_selected_option st with
  | none => []
  | some selected_option => MainPage.run_option selected_option

/-- Python `str.startswith`: the second string is an initial segment of
the first. -/
def pyStartswith (s p : String) : Bool :=
  p.data.isPrefixOf s.data

/-- The scheme test of `OptionPage.add_web`:
`url.startswith(('http://', 'https://'))` and the `https://` prefixing. -/
def addScheme (url : String) : String :=
  if pyStartswith url "http://" || pyStartswith url "https://" then url
  else "https://" ++ url

/-- Append `data` to the file `fname` inside the directory's file list
(`open(path, 'a')` creates the file when missing). -/
def appendToFile (files : DirFiles) (fname : String) (data : List Char) : DirFiles :=
  if files.any (fun f => f.1 = fname) then
    files.map fun f => if f.1 = fname then (f.1, f.2 ++ data) else f
  else files ++ [(fname, data)]

/-- Content of the file `fname` in the directory (`open(path, 'r')`);
`[]` when absent (the program would crash there; the modelled flows
always have the file). -/
def readFile (files : DirFiles) (fname : String) : List Char :=
  match files.find? (fun f => f.1 = fname) with
  | some f => f.2
  | none => []

/-- Replace the content of the file `fname` (`open(path, 'w')`). -/
def writeFile (files : DirFiles) (fname : String) (data : List Char) : DirFiles :=
  if files.any (fun f => f.1 = fname) then
    files.map fun f => if f.1 = fname then (f.1, data) else f
  else files ++ [(fname, data)]

/-- Update the directory named `name` on the disk. -/
def updateDir (disk : Disk) (name : String) (g : DirFiles → DirFiles) : Disk :=
  disk.map fun d => if d.1 = name then (d.1, g d.2) else d

/-- `OptionPage.add_web` on the page of the folder named `optName`: strip
the entry text, return silently when empty, prefix `https://` when no
`http(s)://` prefix is present, append `url + os.linesep` to
`data/<optName>/weburls.txt`, and append the new web `OptionApp` to the
folder's app list (`self.option` is the registry object with that
name). -/
def OptionPage.add_web (st : MainState) (optName : String) (entry_text : String) :
    MainState :=
  let url := pyStrip entry_text
  if url = "" then st
  else
    let url := addScheme url
    { options := st.options.map fun o =>
        if o.name = optName then { o with apps := o.apps ++ [{ path := url, type := OptionAppType.web, selected := false }] }
        else o
      disk := updateDir st.disk optName fun files =>
        appendToFile files "weburls.txt" (encodeWrite (url ++ osLinesep)) }

/-- The `for app in self.option.apps` loop of `OptionPage.remove_selected`,
with Python's list-iterator semantics made explicit: the iterator keeps a
numeric index into the live list, `list.remove` (identity-based; every
`OptionApp` object is distinct) deletes the current position, and the
index still advances — so the element after a removed one is skipped.
Returns the remaining apps, `urls_to_remove`, and the paths of the
removed `lnk` files (`os.remove`). -/
def removeSelectedLoop (apps : List OptionApp) (i : Nat)
    (urls_to_remove removed_lnks : List String) :
    List OptionApp × List String × List String :=
  if h : i < apps.length then
    let app := apps.get ⟨i, h⟩
    if app.selected then
      if app.type = OptionAppType.lnk then
        removeSelectedLoop (apps.eraseIdx i) (i + 1) urls_to_remove (removed_lnks ++ [app.path])
      else
        removeSelectedLoop (apps.eraseIdx i) (i + 1) (urls_to_remove ++ [app.path]) removed_lnks
    else
      removeSelectedLoop apps (i + 1) urls_to_remove removed_lnks
  else (apps, urls_to_remove, removed_lnks)
termination_by apps.length - i
decreasing_by
  all_goals (simp [List.length_eraseIdx, h]; omega)

/-- The rewrite phase of `OptionPage.remove_selected`: read
`weburls.txt`, then write back every stripped non-blank line not in
`urls_to_remove`, each followed by `os.linesep`. -/
def rewriteWeburls (content : List Char) (urls_to_remove : List String) : List Char :=
  (readlines (udecode content)).foldl
    (fun out url =>
      let url := pyStrip url
      if url = "" then out
      else if urls_to_remove.contains url then out
      else out ++ encodeWrite (url ++ osLinesep))
    []

/-- `OptionPage.remove_selected` on the page of the folder named
`optName`: run the removal loop over the folder's apps, delete the
removed `lnk` files from the directory, and rewrite `weburls.txt`
without the collected URLs. -/
def OptionPage.remove_selected (st : MainState) (optName : String) : MainState :=
  let apps := match st.options.find? (fun o => o.name = optName) with
    | some o => o.apps
    | none => []
  let r := removeSelectedLoop apps 0 [] []
  { options := st.options.map fun o =>
      if o.name = optName then { o with apps := r.1 } else o
    disk := updateDir st.disk optName fun files =>
      let files := files.filter fun f =>
        ¬ (joinPath (joinPath "data" optName) f.1) ∈ r.2.2
      writeFile files "weburls.txt" (rewriteWeburls (readFile files "weburls.txt") r.2.1) }

/-- `OptionPage.run_selected` (the "Run all selected" button):
`self.option.run_selected()`. -/
def OptionPage.run_selected (f : Folder) : List OptionApp :=
  f.run_selected


/-- The two-item folder refuting C2: its first item is ticked, its
second is not, and the folder itself holds the global selection. -/
def c2Folder : Folder :=
  { name := "f"
    apps := [{ path := "https://a", type := OptionAppType.web, selected := true },
             { path := "https://b", type := OptionAppType.web, selected := false }]
    selected := true }

/-- The state refuting C4: one folder with two web items, both ticked
for removal, stored adjacently in memory and in `weburls.txt`. -/
def c4State : MainState :=
  { options := [{ name := "f"
                  apps := [{ path := "https://a", type := OptionAppType.web, selected := true },
                           { path := "https://b", type := OptionAppType.web, selected := true }]
                  selected := false }]
    disk := [("f", [("weburls.txt",
      encodeWrite ("https://a" ++ osLinesep) ++ encodeWrite ("https://b" ++ osLinesep))])] }

/-- A web `OptionApp` as constructed by `add_web` and by
`get_options` when reading `weburls.txt`. -/
def mkWebApp (u : String) : OptionApp :=
  { path := u, type := OptionAppType.web, selected := false }

/-- The trimmed form of the string contains neither `'\n'` nor `'\r'`
(single-line entry text). -/
def noCRLF (s : String) : Bool :=
  s.data.all fun c => !(c == '\n') && !(c == '\r')

/-- The URLs a sequence of `add_web` entry texts persists: each entry is
stripped, blank entries are dropped, and the `https://` prefixing of
`add_web` is applied. -/
def keptUrls (us : List String) : List String :=
  ((us.map pyStrip).filter fun u => !(u == "")).map addScheme

/-- The `weburls.txt` bytes those entries leave behind: one text-mode
encoded `url + os.linesep` chunk per persisted URL. -/
def weburlsBytes (us : List String) : List Char :=
  (keptUrls us).flatMap fun u => encodeWrite (u ++ osLinesep)

/-! ## General list lemmas -/

theorem dropWhile_eq_of_all {p : Char → Bool} {xs : List Char} (h : ∀ c ∈ xs, p c) :
    xs.dropWhile p = [] := by
  induction xs with
  | nil => rfl
  | cons c rest ih =>
    simp [List.dropWhile_cons, h c (by simp), ih fun c hc => h c (by simp [hc])]

theorem getLast?_dropWhile {p : Char → Bool} {xs : List Char}
    (h : ¬ xs.dropWhile p = []) : (xs.dropWhile p).getLast? = xs.getLast? := by
  induction xs with
  | nil => simp at h
  | cons c rest ih =>
    by_cases hc : p c
    · rw [List.dropWhile_cons_of_pos hc] at h ⊢
      rw [ih h]
      cases hx : rest.getLast? with
      | none =>
        rw [List.getLast?_eq_none_iff] at hx
        subst hx
        simp [List.dropWhile] at h
      | some x =>
        rw [List.getLast?_cons, hx]
        rfl
    · rw [List.dropWhile_cons_of_neg hc]

/-! ## Lemmas about `stripChars` / `pyStrip` -/

theorem stripChars_head?_not_space {cs : List Char} {c : Char}
    (h : (stripChars cs).head? = some c) : isPySpace c = false := by
  unfold stripChars at h
  rw [List.head?_reverse] at h
  have hne : ¬ ((cs.dropWhile isPySpace).reverse.dropWhile isPySpace) = [] := by
    intro hnil
    rw [hnil] at h
    simp at h
  rw [getLast?_dropWhile hne, List.getLast?_reverse] at h
  have := List.head?_dropWhile_not isPySpace cs
  rw [h] at this
  exact this

theorem stripChars_getLast?_not_space {cs : List Char} {c : Char}
    (h : (stripChars cs).getLast? = some c) : isPySpace c = false := by
  unfold stripChars at h
  rw [List.getLast?_reverse] at h
  have := List.head?_dropWhile_not isPySpace (cs.dropWhile isPySpace).reverse
  rw [h] at this
  exact this

theorem stripChars_append_newline {u : List Char}
    (hne : ¬ u = [])
    (hh : ∀ c, u.head? = some c → isPySpace c = false)
    (hl : ∀ c, u.getLast? = some c → isPySpace c = false) :
    stripChars (u ++ ['\n']) = u := by
  obtain ⟨c, rest, rfl⟩ : ∃ c rest, u = c :: rest := by
    cases u with
    | nil => exact absurd rfl hne
    | cons c rest => exact ⟨c, rest, rfl⟩
  unfold stripChars
  rw [List.cons_append, List.dropWhile_cons_of_neg (by simp [hh c rfl])]
  have hrev : (c :: (rest ++ ['\n'])).reverse = '\n' :: (c :: rest).reverse := by
    simp
  rw [hrev, List.dropWhile_cons_of_pos (by simp [isPySpace])]
  rcases hlast : (c :: rest).getLast? with _ | ⟨d⟩
  · simp at hlast
  · have : (c :: rest).reverse.head? = some d := by
      rw [List.head?_reverse, hlast]
    obtain ⟨tl, htl⟩ : ∃ tl, (c :: rest).reverse = d :: tl := by
      cases hrv : (c :: rest).reverse with
      | nil => rw [hrv] at this; simp at this
      | cons x tl =>
        rw [hrv] at this
        simp at this
        exact ⟨tl, by rw [this]⟩
    rw [htl, List.dropWhile_cons_of_neg (by simp [hl d hlast]), ← htl,
      List.reverse_reverse]

theorem stripChars_newline : stripChars ['\n'] = [] := by decide

theorem stripChars_nil : stripChars [] = [] := by decide

/-! ## C1: single global folder selection -/

theorem deselectFirstSelected_length (l : List Folder) :
    (deselectFirstSelected l).length = l.length := by
  induction l with
  | nil => rfl
  | cons f rest ih =>
    by_cases hf : f.selected <;> simp [deselectFirstSelected, hf, ih]

theorem selectIdx_length (l : List Folder) (i : Nat) :
    (selectIdx l i).length = l.length := by
  induction l generalizing i with
  | nil => rfl
  | cons f rest ih =>
    cases i with
    | zero => simp [selectIdx]
    | succ n => simp [selectIdx, ih]

theorem deselectFirstSelected_all_false {l : List Folder}
    (hinv : atMostOneSelected l) :
    ∀ f ∈ deselectFirstSelected l, f.selected = false := by
  induction l with
  | nil => simp [deselectFirstSelected]
  | cons f rest ih =>
    by_cases hf : f.selected
    · have hrest : ∀ g ∈ rest, g.selected = false := by
        unfold atMostOneSelected at hinv
        rw [List.filter_cons, if_pos hf] at hinv
        simp at hinv
        exact hinv
      intro g hg
      rw [deselectFirstSelected, if_pos hf] at hg
      rcases List.mem_cons.mp hg with h | h
      · rw [h]
      · exact hrest g h
    · have hinv' : atMostOneSelected rest := by
        unfold atMostOneSelected at hinv ⊢
        rwa [List.filter_cons, if_neg (by simpa using hf)] at hinv
      intro g hg
      rw [deselectFirstSelected, if_neg hf] at hg
      rcases List.mem_cons.mp hg with h | h
      · rw [h]; simpa using hf
      · exact ih hinv' g h

theorem selectIdx_atMostOne {l : List Folder}
    (hall : ∀ f ∈ l, f.selected = false) (i : Nat) :
    atMostOneSelected (selectIdx l i) := by
  induction l generalizing i with
  | nil => simp [selectIdx, atMostOneSelected]
  | cons f rest ih =>
    have hrest : ∀ g ∈ rest, g.selected = false := fun g hg => hall g (by simp [hg])
    have hfilter : (rest.filter fun g => g.selected) = [] :=
      List.filter_eq_nil_iff.mpr (by simpa using hrest)
    cases i with
    | zero =>
      unfold atMostOneSelected
      simp [selectIdx, List.filter_cons, hfilter]
    | succ n =>
      have := ih hrest n
      unfold atMostOneSelected at this ⊢
      rw [selectIdx, List.filter_cons, if_neg (by simp [hall f (by simp)])]
      exact this

theorem selectIdx_getElem?_self {l : List Folder} {i : Nat} (h : i < l.length) :
    (selectIdx l i)[i]? = l[i]?.map fun f => { f with selected := true } := by
  induction l generalizing i with
  | nil => simp at h
  | cons f rest ih =>
    cases i with
    | zero => simp [selectIdx]
    | succ n =>
      simp only [selectIdx, List.getElem?_cons_succ]
      exact ih (by simpa using h)

theorem selectIdx_getElem?_ne {l : List Folder} {i j : Nat} (h : ¬ j = i) :
    (selectIdx l i)[j]? = l[j]? := by
  induction l generalizing i j with
  | nil => simp [selectIdx]
  | cons f rest ih =>
    cases i with
    | zero =>
      cases j with
      | zero => exact absurd rfl h
      | succ m => simp [selectIdx]
    | succ n =>
      cases j with
      | zero => simp [selectIdx]
      | succ m =>
        simp only [selectIdx, List.getElem?_cons_succ]
        exact ih (by omega)

/-- C1 — Folder selection is exclusive: from a state where at most one
folder is selected, clicking any folder label leaves at most one folder
selected, and clicking folder `b` while a distinct folder `a` holds the
selection leaves `b` selected and `a` deselected. -/
theorem on_click_exclusive (all : List Folder) (a b : Nat)
    (ha : all[a]?.map Folder.selected = some true)
    (hb : b < all.length) (hab : ¬ a = b)
    (hinv : atMostOneSelected all) :
    (∀ i, atMostOneSelected (Folder.on_click all i)) ∧
    (Folder.on_click all b)[b]?.map Folder.selected = some true ∧
    (Folder.on_click all b)[a]?.map Folder.selected = some false := by
  have hdsall := deselectFirstSelected_all_false hinv
  refine ⟨fun i => selectIdx_atMostOne hdsall i, ?_, ?_⟩
  · have hb' : b < (deselectFirstSelected all).length := by
      rwa [deselectFirstSelected_length]
    rw [Folder.on_click, selectIdx_getElem?_self hb',
      List.getElem?_eq_getElem hb']
    simp
  · have ha' : a < all.length := by
      by_contra hlt
      rw [List.getElem?_eq_none (by omega)] at ha
      simp at ha
    have ha'' : a < (deselectFirstSelected all).length := by
      rwa [deselectFirstSelected_length]
    rw [Folder.on_click, selectIdx_getElem?_ne (by omega),
      List.getElem?_eq_getElem ha'']
    have hmem : (deselectFirstSelected all)[a] ∈ deselectFirstSelected all :=
      List.getElem_mem ha''
    simp [hdsall _ hmem]

/-- Witness for `on_click_exclusive` at a concrete two-folder registry. -/
theorem on_click_exclusive_witness :
    ([{ name := "A", apps := [], selected := true },
      { name := "B", apps := [], selected := false }] : List Folder)[0]?.map
        Folder.selected = some true ∧
    (Folder.on_click [{ name := "A", apps := [], selected := true },
      { name := "B", apps := [], selected := false }] 1)[1]?.map
        Folder.selected = some true := by
  refine ⟨by decide, ?_⟩
  exact (on_click_exclusive
    [{ name := "A", apps := [], selected := true },
     { name := "B", apps := [], selected := false }] 0 1
    (by decide) (by decide) (by decide) (by decide)).2.1

/-! ## C2, C3: run traces -/

theorem foldl_append_singleton (l : List OptionApp) (acc : List OptionApp) :
    l.foldl (fun trace app => trace ++ app.run) acc = acc ++ l := by
  induction l generalizing acc with
  | nil => simp
  | cons a rest ih =>
    rw [List.foldl_cons, ih]
    simp [OptionApp.run]

theorem run_all_eq_apps (f : Folder) : f.run_all = f.apps := by
  unfold Folder.run_all
  rw [foldl_append_singleton]
  simp

theorem foldl_filter_selected (l : List OptionApp) (acc : List OptionApp) :
    l.foldl (fun trace app => if app.selected then trace ++ app.run else trace) acc =
      acc ++ l.filter fun app => app.selected := by
  induction l generalizing acc with
  | nil => simp
  | cons a rest ih =>
    simp only [List.foldl_cons, List.filter_cons]
    by_cases ha : a.selected = true
    · rw [if_pos ha, if_pos ha, ih]
      simp [OptionApp.run]
    · rw [if_neg ha, if_neg ha, ih]

theorem run_selected_eq_filter (f : Folder) :
    f.run_selected = f.apps.filter fun app => app.selected := by
  unfold Folder.run_selected
  rw [foldl_filter_selected]
  simp

/-- C3 — `run_selected` on a folder whose items include at least one
selected and one unselected item launches exactly the selected items in
their stored order (the launch trace is the in-order filter of the app
list on the `selected` flag) and never launches an unselected item. -/
theorem run_selected_only_selected (f : Folder)
    (hsome : ∃ a ∈ f.apps, a.selected = true)
    (hother : ∃ b ∈ f.apps, b.selected = false) :
    f.run_selected = (f.apps.filter fun app => app.selected) ∧
    (∀ a ∈ f.run_selected, a.selected = true) ∧
    (∀ b ∈ f.apps, b.selected = false → ¬ b ∈ f.run_selected) := by
  obtain ⟨_, -, -⟩ := hsome
  obtain ⟨_, -, -⟩ := hother
  refine ⟨run_selected_eq_filter f, ?_, ?_⟩
  · intro a ha
    rw [run_selected_eq_filter] at ha
    exact (List.mem_filter.mp ha).2
  · intro b _ hbsel hbmem
    rw [run_selected_eq_filter] at hbmem
    have := (List.mem_filter.mp hbmem).2
    rw [hbsel] at this
    exact Bool.false_ne_true this

/-- Witness for `run_selected_only_selected` at a concrete folder with
one ticked and one unticked item. -/
theorem run_selected_only_selected_witness :
    ({ name := "f"
       apps := [{ path := "https://a", type := OptionAppType.web, selected := true },
                { path := "https://b", type := OptionAppType.web, selected := false }]
       selected := false } : Folder).run_selected =
      [{ path := "https://a", type := OptionAppType.web, selected := true }] := by
  have h := run_selected_only_selected
    { name := "f"
      apps := [{ path := "https://a", type := OptionAppType.web, selected := true },
               { path := "https://b", type := OptionAppType.web, selected := false }]
      selected := false }
    ⟨{ path := "https://a", type := OptionAppType.web, selected := true }, by decide⟩
    ⟨{ path := "https://b", type := OptionAppType.web, selected := false }, by decide⟩
  rw [h.1]
  decide

/-- C2, counterexample — with `c2Folder` globally selected, the overview
run button launches both items, including the unticked one, so the
launch trace differs from the ticked subset. -/
theorem run_selected_option_not_ticked_subset :
    MainPage.run_selected_option { options := [c2Folder], disk := [] } =
      [{ path := "https://a", type := OptionAppType.web, selected := true },
       { path := "https://b", type := OptionAppType.web, selected := false }] ∧
    ¬ MainPage.run_selected_option { options := [c2Folder], disk := [] } =
        (c2Folder.apps.filter fun app => app.selected) := by
  decide

/-- C2, amended — when a folder is globally selected, the overview
button ("Run all from folder", `run_selected_option`) launches all of
that folder's items in stored order, regardless of the per-item
`selected` flags. -/
theorem run_selected_option_runs_all (st : MainState) (f : Folder)
    (hsel : MainPage.get_selected_option st = some f) :
    MainPage.run_selected_option st = f.apps := by
  unfold MainPage.run_selected_option
  rw [hsel]
  unfold MainPage.run_option
  exact run_all_eq_apps f

/-- Witness for `run_selected_option_runs_all` at a concrete state. -/
theorem run_selected_option_runs_all_witness :
    MainPage.run_selected_option { options := [c2Folder], disk := [] } =
      c2Folder.apps :=
  run_selected_option_runs_all { options := [c2Folder], disk := [] } c2Folder
    (by decide)

/-! ## C6, C7: folder creation -/

/-- C6 — `create_folder` is a validated no-op: an entered name that is
empty after trimming, or that after trimming equals an existing folder's
name, leaves the whole state (folder set and disk) unchanged, with no
error. -/
theorem add_new_option_invalid_noop (st : MainState) (entry_text : String)
    (h : pyStrip entry_text = "" ∨ ∃ o ∈ st.options, pyStrip entry_text = o.name) :
    MainPage.add_new_option st entry_text = st := by
  unfold MainPage.add_new_option MainPage.add_option
  rcases h with h | ⟨o, ho, hname⟩
  · simp [h]
  · have hany : st.options.any (fun option => pyStrip entry_text = option.name) = true :=
      List.any_eq_true.mpr ⟨o, ho, by simp [hname]⟩
    simp only [hany, if_true]
    split <;> rfl

/-- Witness for `add_new_option_invalid_noop`: blank name and duplicate
name are both ignored. -/
theorem add_new_option_invalid_noop_witness :
    MainPage.add_new_option
      { options := [{ name := "work", apps := [], selected := false }]
        disk := [("work", [("weburls.txt", [])])] } "  work " =
    { options := [{ name := "work", apps := [], selected := false }]
      disk := [("work", [("weburls.txt", [])])] } ∧
    MainPage.add_new_option { options := [], disk := [] } "   " =
      { options := [], disk := [] } := by
  constructor
  · exact add_new_option_invalid_noop _ "  work "
      (Or.inr ⟨{ name := "work", apps := [], selected := false }, by decide⟩)
  · exact add_new_option_invalid_noop _ "   " (Or.inl (by decide))

/-- C7 — creating a folder with a trimmed, non-empty, non-colliding name
appends exactly one new folder to the in-memory set and exactly one new
directory of that exact name, holding exactly one empty `weburls.txt`,
to the data directory. -/
theorem add_new_option_valid_creates (st : MainState) (name : String)
    (htrim : pyStrip name = name) (hne : ¬ name = "")
    (hdup : ∀ o ∈ st.options, ¬ name = o.name)
    (hdir : dirExists st.disk name = false) :
    MainPage.add_new_option st name =
      { options := st.options ++ [{ name := name, apps := [], selected := false }]
        disk := st.disk ++ [(name, [("weburls.txt", [])])] } := by
  unfold MainPage.add_new_option MainPage.add_option
  have hany : st.options.any (fun option => pyStrip name = option.name) = false := by
    rw [List.any_eq_false]
    intro o ho
    rw [htrim]
    simpa using hdup o ho
  simp [htrim, hne, hany, hdir]
  intro x hx hname
  exact absurd hname (hdup x hx)

/-- Witness for `add_new_option_valid_creates` at a concrete state. -/
theorem add_new_option_valid_creates_witness :
    MainPage.add_new_option
      { options := [{ name := "old", apps := [], selected := false }]
        disk := [("old", [("weburls.txt", [])])] } "work" =
    { options := [{ name := "old", apps := [], selected := false },
                  { name := "work", apps := [], selected := false }]
      disk := [("old", [("weburls.txt", [])]),
               ("work", [("weburls.txt", [])])] } :=
  add_new_option_valid_creates _ "work" (by decide) (by decide)
    (by decide) (by decide)

/-! ## C10: the shadowed-variable lookup -/

/-- C10 — `MainPage.get_option` always returns `None`: its loop variable
shadows the parameter, so `option.name == option` compares a string with
the folder object itself and never holds; consequently the lookups in
`add_site` and `get_apps` never succeed (both die with `AttributeError`
on `None`, modelled as `none`). -/
theorem get_option_always_none (st : MainState) (option : Folder)
    (site_url : String) :
    (MainPage.get_option st option).2 = none ∧
    MainPage.add_site st option site_url = none ∧
    MainPage.get_apps st option = none := by
  have h : (MainPage.get_option st option).2 = none := by
    unfold MainPage.get_option
    simp [pyEqStrFolder]
  exact ⟨h, h, by unfold MainPage.get_apps; rw [h]; rfl⟩

/-! ## C8: https:// auto-prefixing in `add_web` -/

/-- C8, counterexample — the input `ftp://example.com` carries a URL
scheme prefix, yet `add_web` does not persist it unchanged: the stored
URL (in memory and in the appended `weburls.txt` line) is
`https://ftp://example.com`, because the code only tests for the two
literal prefixes `http://` and `https://`. -/
theorem add_web_scheme_counterexample :
    (OptionPage.add_web
        { options := [{ name := "f", apps := [], selected := false }]
          disk := [("f", [("weburls.txt", [])])] } "f" "ftp://example.com").options =
      [{ name := "f"
         apps := [{ path := "https://ftp://example.com"
                    type := OptionAppType.web, selected := false }]
         selected := false }] ∧
    ¬ ("https://ftp://example.com" = "ftp://example.com") := by
  constructor
  · rfl
  · decide

/-- C8, amended — for a non-blank trimmed input, `add_web` persists the
trimmed input both as the new in-memory web item and as the line
appended to `weburls.txt`, prefixed with `https://` unless the input
already starts with the literal `http://` or `https://` (inputs with any
other scheme, such as `ftp://`, are also prefixed); inputs starting with
`http://` or `https://` are persisted unchanged. -/
theorem add_web_persists (apps : List OptionApp) (content : List Char)
    (n input : String) (sel : Bool) (h : ¬ pyStrip input = "") :
    OptionPage.add_web
        { options := [{ name := n, apps := apps, selected := sel }]
          disk := [(n, [("weburls.txt", content)])] } n input =
      { options := [{ name := n
                      apps := apps ++ [{ path := addScheme (pyStrip input)
                                         type := OptionAppType.web
                                         selected := false }]
                      selected := sel }]
        disk := [(n, [("weburls.txt",
          content ++ encodeWrite (addScheme (pyStrip input) ++ osLinesep))])] } ∧
    (¬ pyStartswith (pyStrip input) "http://" ∧ ¬ pyStartswith (pyStrip input) "https://" →
      addScheme (pyStrip input) = "https://" ++ pyStrip input) ∧
    (pyStartswith (pyStrip input) "http://" ∨ pyStartswith (pyStrip input) "https://" →
      addScheme (pyStrip input) = pyStrip input) := by
  refine ⟨?_, ?_, ?_⟩
  · unfold OptionPage.add_web
    simp only [h, if_false]
    unfold updateDir appendToFile
    simp
  · intro ⟨h1, h2⟩
    unfold addScheme
    rw [if_neg (by simp [h1, h2])]
  · intro hor
    unfold addScheme
    rcases hor with h1 | h1 <;> simp [h1]

/-- Witness for `add_web_persists` at concrete inputs. -/
theorem add_web_persists_witness :
    OptionPage.add_web
        { options := [{ name := "f", apps := [], selected := false }]
          disk := [("f", [("weburls.txt", [])])] } "f" " example.com " =
      { options := [{ name := "f"
                      apps := [{ path := addScheme (pyStrip " example.com ")
                                 type := OptionAppType.web, selected := false }]
                      selected := false }]
        disk := [("f", [("weburls.txt",
          encodeWrite (addScheme (pyStrip " example.com ") ++ osLinesep))])] } ∧
    addScheme (pyStrip " example.com ") = "https://" ++ pyStrip " example.com " := by
  have h := add_web_persists [] [] "f" " example.com " false (by decide)
  refine ⟨?_, h.2.1 ⟨by decide, by decide⟩⟩
  have := h.1
  simpa using this

/-! ## C9: deleting the selected folder -/

theorem get_selected_split {l : List Folder} {sel : Folder}
    (h : Folder.get_selected l = some sel) :
    ∃ pre post, l = pre ++ sel :: post ∧ (∀ f ∈ pre, f.selected = false) ∧
      removeFirstSelected l = pre ++ post ∧ sel.selected = true := by
  induction l with
  | nil => simp [Folder.get_selected] at h
  | cons f rest ih =>
    by_cases hf : f.selected = true
    · rw [Folder.get_selected, List.find?_cons_of_pos _ hf] at h
      obtain rfl : f = sel := by injection h
      exact ⟨[], rest, by simp, by simp, by simp [removeFirstSelected, hf], hf⟩
    · rw [Folder.get_selected, List.find?_cons_of_neg _ hf] at h
      obtain ⟨pre, post, hsplit, hpre, hrem, hsel⟩ := ih h
      refine ⟨f :: pre, post, by simp [hsplit], ?_, ?_, hsel⟩
      · intro g hg
        rcases List.mem_cons.mp hg with hg | hg
        · rw [hg]; simpa using hf
        · exact hpre g hg
      · rw [removeFirstSelected, if_neg hf, hrem]
        simp

theorem add_option_mem_options {st : MainState} {nm : String}
    {apps : List OptionApp} {f : Folder}
    (h : f ∈ (MainPage.add_option st nm apps).options) :
    f ∈ st.options ∨ f.name = pyStrip nm := by
  unfold MainPage.add_option at h
  by_cases h1 : pyStrip nm = ""
  · rw [if_pos h1] at h; exact Or.inl h
  · rw [if_neg h1] at h
    by_cases h2 : st.options.any (fun option => pyStrip nm = option.name) = true
    · rw [if_pos h2] at h; exact Or.inl h
    · rw [if_neg h2] at h
      by_cases h3 : dirExists st.disk (pyStrip nm) = true <;>
        [rw [if_pos h3] at h; rw [if_neg h3] at h] <;>
      · rcases List.mem_append.mp h with hmem | hmem
        · exact Or.inl hmem
        · simp at hmem
          exact Or.inr (by rw [hmem])

theorem get_options_names {st : MainState} {f : Folder}
    (h : f ∈ (MainPage.get_options st).options) :
    ∃ d ∈ st.disk, f.name = pyStrip d.1 := by
  unfold MainPage.get_options at h
  suffices key : ∀ (disk : Disk) (acc : MainState),
      f ∈ (disk.foldl (fun acc d => MainPage.add_option acc d.1 (loadDirApps d.1 d.2)) acc).options →
      f ∈ acc.options ∨ ∃ d ∈ disk, f.name = pyStrip d.1 by
    rcases key st.disk { st with options := [] } h with hmem | hmem
    · simp at hmem
    · exact hmem
  intro disk
  induction disk with
  | nil => intro acc h; exact Or.inl h
  | cons d rest ih =>
    intro acc h
    rw [List.foldl_cons] at h
    rcases ih _ h with hmem | hmem
    · rcases add_option_mem_options hmem with hmem' | hmem'
      · exact Or.inl hmem'
      · exact Or.inr ⟨d, by simp, hmem'⟩
    · obtain ⟨d', hd', hname⟩ := hmem
      exact Or.inr ⟨d', by simp [hd'], hname⟩

/-- C9 — deleting the selected folder: when a folder holds the global
selection, it is removed from the in-memory folder list and every disk
directory bearing its name is deleted, so reloading from disk yields no
folder of that name; when no folder is selected, the state is
untouched.  (The disk-name hypothesis — directory names on disk are
trimmed — is the invariant the program itself maintains, since
`add_option` strips names before `os.mkdir`.) -/
theorem del_selected_option_spec (st : MainState) :
    (∀ sel, MainPage.get_selected_option st = some sel →
      (∀ d ∈ st.disk, pyStrip d.1 = d.1) →
      (∃ pre post, st.options = pre ++ sel :: post ∧
        (∀ f ∈ pre, f.selected = false) ∧
        (MainPage.del_selected_option st).options = pre ++ post) ∧
      (MainPage.del_selected_option st).disk =
        st.disk.filter (fun d => ¬ d.1 = sel.name) ∧
      dirExists (MainPage.del_selected_option st).disk sel.name = false ∧
      (∀ f ∈ (MainPage.get_options (MainPage.del_selected_option st)).options,
        ¬ f.name = sel.name)) ∧
    (MainPage.get_selected_option st = none →
      MainPage.del_selected_option st = st) := by
  constructor
  · intro sel hsel hnames
    have hdel : MainPage.del_selected_option st =
        { options := removeFirstSelected st.options
          disk := st.disk.filter fun d => ¬ d.1 = sel.name } := by
      unfold MainPage.del_selected_option
      rw [hsel]
    obtain ⟨pre, post, hsplit, hpre, hrem, -⟩ := get_selected_split hsel
    refine ⟨⟨pre, post, hsplit, hpre, by rw [hdel, hrem]⟩, by rw [hdel], ?_, ?_⟩
    · rw [hdel]
      unfold dirExists
      rw [List.any_eq_false]
      intro d hd
      have := (List.mem_filter.mp hd).2
      simpa using this
    · intro f hf
      obtain ⟨d, hd, hname⟩ := get_options_names hf
      rw [hdel] at hd
      have hdmem := (List.mem_filter.mp hd).1
      have hdname : ¬ d.1 = sel.name := by
        have := (List.mem_filter.mp hd).2
        simpa using this
      rw [hname, hnames d hdmem]
      exact hdname
  · intro hnone
    unfold MainPage.del_selected_option
    rw [hnone]

/-- Witness for `del_selected_option_spec`: a concrete deletion and a
concrete no-op. -/
theorem del_selected_option_spec_witness :
    (MainPage.del_selected_option
      { options := [{ name := "a", apps := [], selected := false },
                    { name := "b", apps := [], selected := true }]
        disk := [("a", [("weburls.txt", [])]), ("b", [("weburls.txt", [])])] }).disk =
      [("a", [("weburls.txt", [])])] ∧
    MainPage.del_selected_option
      { options := [{ name := "a", apps := [], selected := false }]
        disk := [("a", [("weburls.txt", [])])] } =
    { options := [{ name := "a", apps := [], selected := false }]
      disk := [("a", [("weburls.txt", [])])] } := by
  constructor
  · have h := (del_selected_option_spec
      { options := [{ name := "a", apps := [], selected := false },
                    { name := "b", apps := [], selected := true }]
        disk := [("a", [("weburls.txt", [])]), ("b", [("weburls.txt", [])])] }).1
      { name := "b", apps := [], selected := true } (by decide) (by decide)
    rw [h.2.1]
    decide
  · exact (del_selected_option_spec _).2 (by decide)

/-! ## C4: remove-selected skips the element after a removal -/

/-- C4 — evaluation at the failing input: in `c4State` both web items
are flagged for removal, yet `remove_selected` removes only the first.
The loop mutates the list it iterates (`self.option.apps.remove(app)`),
so the element after each removed one is skipped: `https://b` survives,
still flagged, in memory, and the rewritten `weburls.txt` still contains
the line `https://b` (followed by `os.linesep`, written through the
text-mode layer).  The claim — exactly the flagged subset is removed and
the file keeps exactly the unselected URLs (here: none) — fails. -/
theorem remove_selected_skips_adjacent :
    OptionPage.remove_selected c4State "f" =
      { options := [{ name := "f"
                      apps := [{ path := "https://b", type := OptionAppType.web,
                                 selected := true }]
                      selected := false }]
        disk := [("f", [("weburls.txt", encodeWrite ("https://b" ++ osLinesep))])] } ∧
    ¬ ((OptionPage.remove_selected c4State "f").options.map
        (fun o => o.apps.filter fun a => a.selected) = [[]]) := by
  have h : OptionPage.remove_selected c4State "f" =
      { options := [{ name := "f"
                      apps := [{ path := "https://b", type := OptionAppType.web,
                                 selected := true }]
                      selected := false }]
        disk := [("f", [("weburls.txt", encodeWrite ("https://b" ++ osLinesep))])] } := by
    simp [c4State, OptionPage.remove_selected, removeSelectedLoop, updateDir,
      readFile, writeFile, rewriteWeburls, encodeWrite, osLinesep, udecode,
      readlines, splitLinesAux, parseWeburls, joinPath]
    decide
  refine ⟨h, ?_⟩
  rw [h]
  decide

/-! ## C5: lemmas on the text-mode encoding and line parsing -/

theorem stripChars_eq_self {cs : List Char}
    (hh : ∀ c, cs.head? = some c → isPySpace c = false)
    (hl : ∀ c, cs.getLast? = some c → isPySpace c = false) :
    stripChars cs = cs := by
  cases cs with
  | nil => rfl
  | cons c rest =>
    unfold stripChars
    rw [List.dropWhile_cons_of_neg (by simp [hh c rfl])]
    rcases hlast : (c :: rest).getLast? with _ | ⟨d⟩
    · simp at hlast
    · obtain ⟨tl, htl⟩ : ∃ tl, (c :: rest).reverse = d :: tl := by
        have hd : (c :: rest).reverse.head? = some d := by
          rw [List.head?_reverse, hlast]
        cases hrv : (c :: rest).reverse with
        | nil => rw [hrv] at hd; simp at hd
        | cons x tl =>
          rw [hrv] at hd
          simp at hd
          exact ⟨tl, by rw [hd]⟩
      rw [htl, List.dropWhile_cons_of_neg (by simp [hl d hlast]), ← htl,
        List.reverse_reverse]

theorem pyStrip_mk_data {s : String} (h : stripChars s.data = s.data) :
    pyStrip s = s := by
  unfold pyStrip
  rw [h]

theorem data_pyStrip (s : String) : (pyStrip s).data = stripChars s.data := rfl

theorem udecode_cons_of_ne {c : Char} (rest : List Char) (h : ¬ c = '\r') :
    udecode (c :: rest) = c :: udecode rest := by
  cases rest with
  | nil => simp [udecode, h]
  | cons c' r => simp [udecode, h]

theorem udecode_rrn (rest : List Char) :
    udecode ('\r' :: '\r' :: '\n' :: rest) = '\n' :: '\n' :: udecode rest := by
  rfl

theorem udecode_append_noCR {xs : List Char} (ys : List Char)
    (h : ¬ '\r' ∈ xs) :
    udecode (xs ++ ys) = xs ++ udecode ys := by
  induction xs with
  | nil => rfl
  | cons x rest ih =>
    have hx : ¬ x = '\r' := fun hc => h (by simp [hc])
    rw [List.cons_append, udecode_cons_of_ne _ hx,
      ih fun hc => h (by simp [hc])]
    rfl

theorem splitLinesAux_append_newline {xs : List Char} (ys : List Char)
    (acc : List Char) (h : ¬ '\n' ∈ xs) :
    splitLinesAux (xs ++ '\n' :: ys) acc =
      String.mk (acc.reverse ++ xs ++ ['\n']) :: splitLinesAux ys [] := by
  induction xs generalizing acc with
  | nil => simp [splitLinesAux]
  | cons x rest ih =>
    have hx : ¬ x = '\n' := fun hc => h (by simp [hc])
    rw [List.cons_append, splitLinesAux, if_neg hx,
      ih (x :: acc) fun hc => h (by simp [hc])]
    simp

theorem flatMap_noNL {cs : List Char} (h : ¬ '\n' ∈ cs) :
    cs.flatMap (fun c => if c = '\n' then ['\r', '\n'] else [c]) = cs := by
  induction cs with
  | nil => rfl
  | cons c rest ih =>
    rw [List.flatMap_cons, if_neg (fun hc => h (by simp [hc])),
      ih fun hc => h (by simp [hc])]
    rfl

theorem encodeWrite_linesep (k : String) (h : ¬ '\n' ∈ k.data) :
    encodeWrite (k ++ osLinesep) = k.data ++ ['\r', '\r', '\n'] := by
  unfold encodeWrite osLinesep
  rw [String.data_append, List.flatMap_append, flatMap_noNL h]
  rfl

theorem noCRLF_no_mem {v : String} (h : noCRLF v = true) :
    ¬ '\n' ∈ v.data ∧ ¬ '\r' ∈ v.data := by
  unfold noCRLF at h
  rw [List.all_eq_true] at h
  constructor
  · intro hm
    have := h _ hm
    simp at this
  · intro hm
    have := h _ hm
    simp at this

theorem addScheme_data_cases (v : String) :
    (addScheme v).data = v.data ∨
      (addScheme v).data = "https://".data ++ v.data := by
  unfold addScheme
  by_cases h : (pyStartswith v "http://" || pyStartswith v "https://") = true
  · rw [if_pos h]
    exact Or.inl rfl
  · rw [if_neg h]
    exact Or.inr (String.data_append _ _)

theorem addScheme_ne_empty {v : String} (h : ¬ v = "") : ¬ addScheme v = "" := by
  intro h0
  rcases addScheme_data_cases v with hc | hc
  · rw [h0] at hc
    exact h (String.ext hc.symm)
  · rw [h0] at hc
    have : ("https://".data ++ v.data).length = 0 := by rw [← hc]; rfl
    simp at this

theorem addScheme_no_crlf {v : String} (h : noCRLF v = true) :
    ¬ '\n' ∈ (addScheme v).data ∧ ¬ '\r' ∈ (addScheme v).data := by
  obtain ⟨hn, hr⟩ := noCRLF_no_mem h
  rcases addScheme_data_cases v with hc | hc <;> rw [hc]
  · exact ⟨hn, hr⟩
  · constructor
    · intro hm
      rcases List.mem_append.mp hm with hm | hm
      · simp at hm
      · exact hn hm
    · intro hm
      rcases List.mem_append.mp hm with hm | hm
      · simp at hm
      · exact hr hm

theorem addScheme_pyStrip_stripinv (u : String) (hne : ¬ pyStrip u = "") :
    stripChars (addScheme (pyStrip u)).data = (addScheme (pyStrip u)).data := by
  have hvdata : (pyStrip u).data = stripChars u.data := rfl
  have hvne : ¬ (pyStrip u).data = [] := by
    intro h0
    exact hne (String.ext h0)
  have hh_v : ∀ c, (pyStrip u).data.head? = some c → isPySpace c = false := by
    intro c hc
    rw [hvdata] at hc
    exact stripChars_head?_not_space hc
  have hl_v : ∀ c, (pyStrip u).data.getLast? = some c → isPySpace c = false := by
    intro c hc
    rw [hvdata] at hc
    exact stripChars_getLast?_not_space hc
  rcases addScheme_data_cases (pyStrip u) with hc | hc <;> rw [hc]
  · exact stripChars_eq_self hh_v hl_v
  · apply stripChars_eq_self
    · intro c hc'
      rw [List.head?_append] at hc'
      have : c = 'h' := by
        rw [show ("https://".data.head? : Option Char) = some 'h' from rfl] at hc'
        injection hc' with h1
        exact h1.symm
      rw [this]
      decide
    · intro c hc'
      rw [List.getLast?_append] at hc'
      rcases hv : (pyStrip u).data with _ | ⟨x, xs⟩
      · exact absurd hv hvne
      · rw [hv] at hc'
        have hlast : (x :: xs).getLast? = some ((x :: xs).getLast (by simp)) :=
          List.getLast?_eq_getLast _ _
        rw [hlast] at hc'
        simp at hc'
        apply hl_v
        rw [hv, hlast, hc']

theorem parseWeburls_eq_filterMap (content : List Char) :
    parseWeburls content =
      (readlines (udecode content)).filterMap fun l =>
        if pyStrip l = "" then none else some (mkWebApp (pyStrip l)) := by
  unfold parseWeburls
  suffices key : ∀ (lines : List String) (acc : List OptionApp),
      lines.foldl
        (fun cur_apps url =>
          let url := pyStrip url
          if url = "" then cur_apps
          else cur_apps ++ [{ path := url, type := OptionAppType.web,
                              selected := false }]) acc =
      acc ++ lines.filterMap fun l =>
        if pyStrip l = "" then none else some (mkWebApp (pyStrip l)) by
    rw [key]
    simp
  intro lines
  induction lines with
  | nil => intro acc; simp
  | cons l rest ih =>
    intro acc
    rw [List.foldl_cons, List.filterMap_cons, ih]
    by_cases hl : pyStrip l = ""
    · simp [hl]
    · simp [hl, mkWebApp]

theorem parse_chunk (k : String) (rest : List Char)
    (hne : ¬ k = "") (hnl : ¬ '\n' ∈ k.data) (hcr : ¬ '\r' ∈ k.data)
    (hstrip : stripChars k.data = k.data) :
    parseWeburls (k.data ++ ['\r', '\r', '\n'] ++ rest) =
      mkWebApp k :: parseWeburls rest := by
  have hkdata_ne : ¬ k.data = [] := by
    intro h0
    exact hne (String.ext h0)
  have hends_h : ∀ c, k.data.head? = some c → isPySpace c = false := by
    intro c hc
    exact stripChars_head?_not_space (by rw [hstrip]; exact hc)
  have hends_l : ∀ c, k.data.getLast? = some c → isPySpace c = false := by
    intro c hc
    exact stripChars_getLast?_not_space (by rw [hstrip]; exact hc)
  rw [parseWeburls_eq_filterMap, parseWeburls_eq_filterMap]
  rw [List.append_assoc]
  rw [udecode_append_noCR _ hcr]
  rw [show (['\r', '\r', '\n'] ++ rest : List Char) = '\r' :: '\r' :: '\n' :: rest
    from rfl]
  rw [udecode_rrn]
  unfold readlines
  rw [show ('\n' :: '\n' :: udecode rest : List Char) = '\n' :: ('\n' :: udecode rest)
    from rfl]
  rw [splitLinesAux_append_newline _ [] hnl]
  rw [show ('\n' :: udecode rest : List Char) = [] ++ '\n' :: udecode rest from rfl]
  rw [splitLinesAux_append_newline _ [] (by simp)]
  rw [List.filterMap_cons, List.filterMap_cons]
  have h1 : pyStrip (String.mk (List.reverse [] ++ k.data ++ ['\n'])) = k := by
    unfold pyStrip
    rw [show (String.mk (List.reverse [] ++ k.data ++ ['\n'])).data =
      k.data ++ ['\n'] from by simp]
    rw [stripChars_append_newline hkdata_ne hends_h hends_l]
  have h2 : pyStrip (String.mk (List.reverse [] ++ [] ++ ['\n'])) = "" := by
    unfold pyStrip
    rw [show (String.mk (List.reverse [] ++ [] ++ ['\n'])).data = ['\n'] from by simp]
    rw [stripChars_newline]
  rw [h1, h2]
  simp [hne]

theorem keptUrls_cons_empty {u : String} (us : List String) (h : pyStrip u = "") :
    keptUrls (u :: us) = keptUrls us := by
  simp [keptUrls, h]

theorem keptUrls_cons_kept {u : String} (us : List String) (h : ¬ pyStrip u = "") :
    keptUrls (u :: us) = addScheme (pyStrip u) :: keptUrls us := by
  simp [keptUrls, h]

theorem weburlsBytes_cons_empty {u : String} (us : List String)
    (h : pyStrip u = "") : weburlsBytes (u :: us) = weburlsBytes us := by
  unfold weburlsBytes
  rw [keptUrls_cons_empty us h]

theorem weburlsBytes_cons_kept {u : String} (us : List String)
    (h : ¬ pyStrip u = "") :
    weburlsBytes (u :: us) =
      encodeWrite (addScheme (pyStrip u) ++ osLinesep) ++ weburlsBytes us := by
  unfold weburlsBytes
  rw [keptUrls_cons_kept us h, List.flatMap_cons]

theorem parse_weburlsBytes (us : List String)
    (hvalid : ∀ u ∈ us, noCRLF (pyStrip u) = true) :
    parseWeburls (weburlsBytes us) = (keptUrls us).map mkWebApp := by
  induction us with
  | nil => rfl
  | cons u us ih =>
    have hv : noCRLF (pyStrip u) = true := hvalid u (by simp)
    have ihv : ∀ x ∈ us, noCRLF (pyStrip x) = true :=
      fun x hx => hvalid x (by simp [hx])
    by_cases hu : pyStrip u = ""
    · rw [weburlsBytes_cons_empty us hu, keptUrls_cons_empty us hu]
      exact ih ihv
    · obtain ⟨hnl, hcr⟩ := addScheme_no_crlf hv
      rw [weburlsBytes_cons_kept us hu, encodeWrite_linesep _ hnl,
        parse_chunk _ _ (addScheme_ne_empty hu) hnl hcr
          (addScheme_pyStrip_stripinv u hu),
        keptUrls_cons_kept us hu, List.map_cons, ih ihv]

theorem add_web_step (apps : List OptionApp) (content : List Char)
    (n u : String) (sel : Bool) :
    OptionPage.add_web
      { options := [{ name := n, apps := apps, selected := sel }]
        disk := [(n, [("weburls.txt", content)])] } n u =
    if pyStrip u = "" then
      { options := [{ name := n, apps := apps, selected := sel }]
        disk := [(n, [("weburls.txt", content)])] }
    else
      { options := [{ name := n
                      apps := apps ++ [mkWebApp (addScheme (pyStrip u))]
                      selected := sel }]
        disk := [(n, [("weburls.txt",
          content ++ encodeWrite (addScheme (pyStrip u) ++ osLinesep))])] } := by
  by_cases h : pyStrip u = ""
  · rw [if_pos h]
    unfold OptionPage.add_web
    rw [if_pos h]
  · rw [if_neg h]
    unfold OptionPage.add_web
    rw [if_neg h]
    simp [updateDir, appendToFile, mkWebApp]

theorem foldl_add_web (n : String) (us : List String) :
    ∀ (apps : List OptionApp) (content : List Char) (sel : Bool),
      us.foldl (fun st u => OptionPage.add_web st n u)
        { options := [{ name := n, apps := apps, selected := sel }]
          disk := [(n, [("weburls.txt", content)])] } =
      { options := [{ name := n
                      apps := apps ++ (keptUrls us).map mkWebApp
                      selected := sel }]
        disk := [(n, [("weburls.txt", content ++ weburlsBytes us)])] } := by
  induction us with
  | nil =>
    intro apps content sel
    simp [keptUrls, weburlsBytes]
  | cons u us ih =>
    intro apps content sel
    rw [List.foldl_cons, add_web_step]
    by_cases hu : pyStrip u = ""
    · rw [if_pos hu, ih, keptUrls_cons_empty us hu, weburlsBytes_cons_empty us hu]
    · rw [if_neg hu, ih, keptUrls_cons_kept us hu, weburlsBytes_cons_kept us hu]
      simp

theorem loadDirApps_weburls (n : String) (content : List Char) :
    loadDirApps n [("weburls.txt", content)] = parseWeburls content := by
  simp [loadDirApps]

theorem get_options_single (opts : List Folder) (n : String) (files : DirFiles)
    (hn1 : pyStrip n = n) (hn2 : ¬ n = "") :
    MainPage.get_options { options := opts, disk := [(n, files)] } =
      { options := [{ name := n, apps := loadDirApps n files, selected := false }]
        disk := [(n, files)] } := by
  simp [MainPage.get_options, MainPage.add_option, hn1, hn2, dirExists]

theorem keptUrls_eq_self {us : List String}
    (h : ∀ u ∈ us, pyStrip u = u ∧ ¬ u = "" ∧
      (pyStartswith u "http://" || pyStartswith u "https://") = true) :
    keptUrls us = us := by
  induction us with
  | nil => rfl
  | cons u us ih =>
    obtain ⟨h1, h2, h3⟩ := h u (by simp)
    have hadd : addScheme u = u := by
      unfold addScheme
      rw [if_pos h3]
    rw [keptUrls_cons_kept us (by rw [h1]; exact h2), h1, hadd,
      ih fun x hx => h x (by simp [hx])]

/-- C5 — round-trip of web items through `weburls.txt`: create a folder
`n`, feed a sequence of single-line entry texts to `add_web`, reload the
whole state from disk with `get_options`.  The reloaded folder holds
exactly the persisted URLs (each entry stripped, blanks dropped,
`https://` prefixing applied), in order, as web items — in particular,
for entries that are already trimmed, non-empty URLs carrying an
`http://` or `https://` prefix, it holds exactly those N URLs in the
same order.  Blank lines of the file (the text-mode double-translated
`os.linesep` produces one after every URL line) are excluded on read. -/
theorem add_web_roundtrip (n : String) (us : List String)
    (hn1 : pyStrip n = n) (hn2 : ¬ n = "")
    (hvalid : ∀ u ∈ us, noCRLF (pyStrip u) = true) :
    (MainPage.get_options
        (us.foldl (fun st u => OptionPage.add_web st n u)
          (MainPage.add_new_option { options := [], disk := [] } n))).options =
      [{ name := n, apps := (keptUrls us).map mkWebApp, selected := false }] ∧
    ((∀ u ∈ us, pyStrip u = u ∧ ¬ u = "" ∧
        (pyStartswith u "http://" || pyStartswith u "https://") = true) →
      (MainPage.get_options
          (us.foldl (fun st u => OptionPage.add_web st n u)
            (MainPage.add_new_option { options := [], disk := [] } n))).options =
        [{ name := n, apps := us.map mkWebApp, selected := false }]) := by
  have hst0 : MainPage.add_new_option { options := [], disk := [] } n =
      { options := [{ name := n, apps := [], selected := false }]
        disk := [(n, [("weburls.txt", [])])] } := by
    simp [MainPage.add_new_option, MainPage.add_option, hn1, hn2, dirExists]
  have key : (MainPage.get_options
      (us.foldl (fun st u => OptionPage.add_web st n u)
        (MainPage.add_new_option { options := [], disk := [] } n))).options =
      [{ name := n, apps := (keptUrls us).map mkWebApp, selected := false }] := by
    rw [hst0, foldl_add_web n us [] [] false,
      get_options_single _ n _ hn1 hn2]
    simp [loadDirApps_weburls, parse_weburlsBytes us hvalid]
  refine ⟨key, fun hextra => ?_⟩
  rw [key, keptUrls_eq_self hextra]

/-- Witness for `add_web_roundtrip`: two concrete entries round-trip. -/
theorem add_web_roundtrip_witness :
    pyStrip "work" = "work" ∧
    (MainPage.get_options
        ((["https://a.io", " b.com "] : List String).foldl
          (fun st u => OptionPage.add_web st "work" u)
          (MainPage.add_new_option { options := [], disk := [] } "work"))).options =
      [{ name := "work"
         apps := (keptUrls ["https://a.io", " b.com "]).map mkWebApp
         selected := false }] :=
  ⟨by decide,
    (add_web_roundtrip "work" ["https://a.io", " b.com "]
      (by decide) (by decide) (by decide)).1⟩
